import Mathlib

/-!
Verification of the spiffe-rotate repository: a shallow embedding of the
certmanager rotation manager, the spiffe authorizer with its restricted
glob matcher, and the vault PKI client/issuer, together with theorems
checking the specified properties against these definitions.

Time instants and durations are modelled as integer nanoseconds, matching
Go's `time.Time.UnixNano` / `time.Duration`. Go strings are modelled as
`List Char` where segment-level reasoning is needed (the glob matcher) and
as `String` elsewhere.
-/

/-! ## certmanager: data model (manager.go) -/

/-- Issuance error, abstracting Go's `error` values returned by `Issuer.Issue`. -/
inductive IssueErr
  | fail (msg : String)
deriving DecidableEq

/-- `certmanager.Bundle`: the fields relevant to scheduling; `NotAfter` in
nanoseconds.  The certificate/key/pool contents are irrelevant to the manager
state machine and are abstracted by an identifier. -/
structure CmBundle where
  id : Nat
  notAfter : Int
deriving DecidableEq

/-- `certmanager.ErrNotReady` as a dedicated error value. -/
inductive MgrErr
  | notReady
deriving DecidableEq

/-- The manager's `curr atomic.Value`: `none` before any successful store. -/
abbrev MgrState := Option CmBundle

/-- `Manager.Current`: returns the stored bundle, or `ErrNotReady` when the
atomic value has never been stored. -/
def Manager.Current (st : MgrState) : Except MgrErr CmBundle :=
  match st with
  | some b => .ok b
  | none => .error .notReady

/-- The next-refresh computation inside `Manager.refresh`:
`now.Add(ttl * 2 / 3)` with `ttl := bundle.NotAfter.Sub(now)`.
Go's integer division truncates toward zero, hence `Int.tdiv`. -/
def refreshNext (now notAfter : Int) : Int :=
  now + Int.tdiv ((notAfter - now) * 2) 3

/-- `Manager.refresh`: calls the issuer; on error returns the error leaving
the stored bundle untouched; on success stores the new bundle and returns it
with the next-refresh time computed from the post-store clock reading. -/
def Manager.refresh (st : MgrState) (issued : Except IssueErr CmBundle) (now : Int) :
    MgrState × Except IssueErr (CmBundle × Int) :=
  match issued with
  | .error e => (st, .error e)
  | .ok b => (some b, .ok (b, refreshNext now b.notAfter))

/-- Folding `Manager.refresh` over a sequence of (issuance result, clock) pairs:
the manager state after a sequence of refresh attempts. -/
def runRefreshes (st : MgrState) : List (Except IssueErr CmBundle × Int) → MgrState
  | [] => st
  | (r, t) :: rest => runRefreshes (Manager.refresh st r t).1 rest

/-- The wait computation in `Manager.Run` before jitter:
`wait := next.Sub(now); if wait < MinRefresh { wait = MinRefresh }`. -/
def runWait (next now minRefresh : Int) : Int :=
  let wait := next - now
  if wait < minRefresh then minRefresh else wait

/-- The jitter term in `Manager.Run`:
`time.Duration(now.UnixNano() % int64(wait/10+1))` added to the wait. -/
def runJitter (nowUnixNano wait : Int) : Int :=
  Int.emod nowUnixNano (Int.tdiv wait 10 + 1)

/-- `certmanager.Options`: durations in nanoseconds; the injectable clock is
`none` when the Go field `Now` is nil. -/
structure Options where
  minRefresh : Int
  errorBackoff : Int
  hookTimeout : Int
  now : Option (Nat → Int)

/-- The clock stored in a constructed manager: either the real-time clock
(`time.Now`, an external effect) or an injected function. -/
inductive Clock
  | system
  | injected (f : Nat → Int)

/-- The defaulted option set held by a constructed `Manager`. -/
structure MgrOptions where
  minRefresh : Int
  errorBackoff : Int
  hookTimeout : Int
  now : Clock

/-- `certmanager.NewWithOptions`: replaces non-positive durations by the
defaults 30s / 15s / 2s and a nil clock by `time.Now`. -/
def NewWithOptions (o : Options) : MgrOptions :=
  { minRefresh := if o.minRefresh ≤ 0 then 30000000000 else o.minRefresh
    errorBackoff := if o.errorBackoff ≤ 0 then 15000000000 else o.errorBackoff
    hookTimeout := if o.hookTimeout ≤ 0 then 2000000000 else o.hookTimeout
    now := match o.now with
      | none => .system
      | some f => .injected f }

/-- The zero `Options` value (all Go zero values). -/
def zeroOptions : Options :=
  { minRefresh := 0, errorBackoff := 0, hookTimeout := 0, now := none }

/-! ## spiffe: authorizer and glob matcher (spiffe.go)

Go strings are modelled as `List Char`; `strings.Split` on `"/"` is
`splitOnChar '/'`, which reproduces Go semantics exactly (splitting the
empty string yields one empty segment, a trailing separator yields a
trailing empty segment). -/

/-- `strings.Split s sep` for a single-character separator. -/
def splitOnChar (c : Char) : List Char → List (List Char)
  | [] => [[]]
  | x :: xs =>
    if x = c then [] :: splitOnChar c xs
    else
      match splitOnChar c xs with
      | [] => [[x]]
      | s :: rest => (x :: s) :: rest

/-- `strings.HasSuffix pattern "*"`. -/
def hasSuffixStar (p : List Char) : Bool := p.getLast? = some '*'

/-- `strings.TrimSuffix pattern "*"`. -/
def trimSuffixStar (p : List Char) : List Char :=
  if hasSuffixStar p then p.dropLast else p

/-- The per-index loop body of `matchSegments`: `+` requires a non-empty
value segment, anything else must be literally equal. -/
def segLoop : List (List Char) → List (List Char) → Bool
  | [], _ => true
  | p :: ps, v :: vs =>
    (if p = ['+'] then decide (v ≠ []) else decide (p = v)) && segLoop ps vs
  | _ :: _, [] => false

/-- The body of `matchSegments` after both strings have been split. -/
def matchSegsCore (psegs0 vsegs : List (List Char)) (pre : Bool) : Bool :=
  let psegs :=
    if pre = true ∧ psegs0.getLast? = some ([] : List Char) then psegs0.dropLast
    else psegs0
  if pre = false ∧ psegs.length ≠ vsegs.length then false
  else if pre = true ∧ vsegs.length < psegs.length then false
  else segLoop psegs vsegs

/-- `matchSegments` from spiffe.go. -/
def matchSegments (pat val : List Char) (pre : Bool) : Bool :=
  matchSegsCore (splitOnChar '/' pat) (splitOnChar '/' val) pre

/-- `matchGlob` from spiffe.go. -/
def matchGlob (pattern value : List Char) : Bool :=
  if pattern = [] ∨ value = [] then false
  else if 1 < pattern.count '*' then false
  else if pattern.contains '*' ∧ hasSuffixStar pattern = false then false
  else if hasSuffixStar pattern then matchSegments (trimSuffixStar pattern) value true
  else matchSegments pattern value false

/-- Spec-side per-segment rule (from the claim's words): `+` matches any
single non-empty segment, every other segment matches literally. -/
def specSegOk (p v : List Char) : Bool :=
  if p = ['+'] then decide (v ≠ []) else decide (p = v)

/-- Spec-side: a trailing empty segment of the pattern is dropped. -/
def specDropTrailingEmpty (l : List (List Char)) : List (List Char) :=
  if l.getLast? = some ([] : List Char) then l.dropLast else l

/-- Spec-side: every pattern segment matches the value segment at the same
position. -/
def specPairsOk (ps vs : List (List Char)) : Bool :=
  (ps.zip vs).all fun pv => specSegOk pv.1 pv.2

/-- The restricted glob as described by the specification (used only to be
compared with `matchGlob`): empty pattern or value never match; more than
one `*` never matches; a `*` that is not the final character never matches;
with a trailing `*` the segments before the `*` (trailing empty segment
dropped) must match a prefix of the value's segments with the pattern's
segment count not exceeding the value's; without a trailing `*` the segment
counts must be exactly equal under the same per-segment rule. -/
def globSpec (pattern value : List Char) : Bool :=
  if pattern = [] ∨ value = [] then false
  else if 1 < pattern.count '*' then false
  else if '*' ∈ pattern.dropLast then false
  else if pattern.getLast? = some '*' then
    decide ((specDropTrailingEmpty (splitOnChar '/' pattern.dropLast)).length ≤
        (splitOnChar '/' value).length) &&
      specPairsOk (specDropTrailingEmpty (splitOnChar '/' pattern.dropLast))
        (splitOnChar '/' value)
  else
    decide ((splitOnChar '/' pattern).length = (splitOnChar '/' value).length) &&
      specPairsOk (splitOnChar '/' pattern) (splitOnChar '/' value)

/-- A URI SAN as seen by the authorizer: its scheme and its rendered string
(`uri.Scheme` and `uri.String()`). -/
structure SpiffeUri where
  scheme : List Char
  str : List Char
deriving DecidableEq

/-- An x509 certificate, reduced to its URI SANs (the only field the
authorizer reads). -/
structure PeerCert where
  uris : List SpiffeUri
deriving DecidableEq

/-- `spiffe.Authorizer`: the three rule sets. -/
structure Authorizer where
  allowedExact : List (List Char)
  allowedPrefixRules : List (List Char)
  allowedGlobs : List (List Char)

/-- The two error outcomes of `Authorizer.VerifyPeerCertificate`. -/
inductive AuthzErr
  | noVerifiedChain
  | notAllowed
deriving DecidableEq

def spiffeScheme : List Char := ['s', 'p', 'i', 'f', 'f', 'e']

/-- The inner rule scan of `VerifyPeerCertificate` for one identity string:
exact rules, then prefix rules, then glob rules, first match wins. -/
def uriAllowed (a : Authorizer) (id : List Char) : Bool :=
  a.allowedExact.any (fun ex => id == ex) ||
  a.allowedPrefixRules.any (fun p => p.isPrefixOf id) ||
  a.allowedGlobs.any (fun g => matchGlob g id)

/-- `Authorizer.VerifyPeerCertificate` from spiffe.go: takes the verified
chains, requires a non-empty first chain, and scans the leaf's
spiffe-scheme URIs against the rules. -/
def VerifyPeerCertificate (a : Authorizer) (verifiedChains : List (List PeerCert)) :
    Except AuthzErr Unit :=
  match verifiedChains with
  | [] => .error .noVerifiedChain
  | chain0 :: _ =>
    match chain0 with
    | [] => .error .noVerifiedChain
    | leaf :: _ =>
      if leaf.uris.any (fun u => u.scheme == spiffeScheme && uriAllowed a u.str) then
        .ok ()
      else .error .notAllowed

/-! ## vault: backend client (client.go)

The HTTP layer is modelled by a script: a function from the index of the
backend call (per endpoint) to its outcome.  An outcome is the result of
`doJSON` (transport / non-2xx errors) combined with the subsequent JSON
decoding step. -/

/-- Vault client error values, mirroring the `error` values constructed in
client.go and types.go. -/
inductive VErr
  | addrRequired
  | pkiPathRequired
  | roleRequired
  | authRequired
  | http (code : Nat) (body : String)
  | jsonDecode
  | emptyToken
  | missingCertKey
  | network (msg : String)
deriving DecidableEq

/-- `strings.TrimSpace`: drop whitespace from both ends (character model). -/
def isSpaceChar (ch : Char) : Bool := ch = ' ' ∨ ch = '\t' ∨ ch = '\n' ∨ ch = '\r'

def trimChars (s : List Char) : List Char :=
  (((s.dropWhile isSpaceChar).reverse).dropWhile isSpaceChar).reverse

/-- `err.Error()`: the rendered message of each error value as a character
list; `doJSON`'s non-2xx error is
`fmt.Errorf("vault http %d: %s", code, TrimSpace(body))`. -/
def errMsg : VErr → List Char
  | .addrRequired => "vault addr required".toList
  | .pkiPathRequired => "pki path required".toList
  | .roleRequired => "pki role required".toList
  | .authRequired => "vault auth required".toList
  | .http code body =>
    "vault http ".toList ++ (toString code).toList ++ ": ".toList ++
      trimChars body.toList
  | .jsonDecode => "json decode error".toList
  | .emptyToken => "vault approle auth returned empty token".toList
  | .missingCertKey => "vault issue response missing certificate/private_key".toList
  | .network msg => msg.toList

/-- `strings.Contains hay needle` on character lists. -/
def strContainsSub (needle : List Char) : List Char → Bool
  | [] => needle.isPrefixOf []
  | x :: t => needle.isPrefixOf (x :: t) || strContainsSub needle t

/-- `isAuthError` from client.go: the rendered error message contains
"permission denied", "http 403" or "http 401". -/
def isAuthError (e : VErr) : Bool :=
  strContainsSub "permission denied".toList (errMsg e) ||
  strContainsSub "http 403".toList (errMsg e) ||
  strContainsSub "http 401".toList (errMsg e)

/-- The scripted backend: outcome of the n-th issuance HTTP call (outer:
`doJSON`; inner: `decodeIssue`, yielding a response identifier) and of the
n-th login HTTP call (outer: `doJSON`; inner: JSON decode, yielding the
`client_token` string). -/
structure VaultScript where
  issue : Nat → Except VErr (Except VErr Nat)
  login : Nat → Except VErr (Except VErr String)

/-- The fields of `vault.Client` that drive the issuance control flow. -/
structure VClient where
  addr : String
  token : String
  roleID : String
  secretID : String

/-- Mutable client state: the cached token plus counters of the backend
HTTP calls actually performed. -/
structure VState where
  token : String
  issueCalls : Nat
  loginCalls : Nat
deriving DecidableEq

/-- One authenticated issuance HTTP call (`doJSON` with `requireAuth`):
fails with `ErrAuthRequired` before any request when no token is held,
otherwise performs the next scripted backend call. -/
def doIssueHTTP (sc : VaultScript) (st : VState) :
    Except VErr (Except VErr Nat) × VState :=
  if st.token = "" then (.error .authRequired, st)
  else (sc.issue st.issueCalls, { st with issueCalls := st.issueCalls + 1 })

/-- One login HTTP call (`doJSON` without `requireAuth`). -/
def doLoginHTTP (sc : VaultScript) (st : VState) :
    Except VErr (Except VErr String) × VState :=
  (sc.login st.loginCalls, { st with loginCalls := st.loginCalls + 1 })

/-- `Client.ensureToken`: a held token is a no-op; missing exchange
credentials fail with `ErrAuthRequired`; otherwise one login call, whose
decoded `client_token` must be non-empty to be stored. -/
def ensureToken (c : VClient) (sc : VaultScript) (st : VState) :
    Except VErr Unit × VState :=
  if st.token ≠ "" then (.ok (), st)
  else if c.roleID = "" ∨ c.secretID = "" then (.error .authRequired, st)
  else
    match (doLoginHTTP sc st).1 with
    | .error e => (.error e, (doLoginHTTP sc st).2)
    | .ok (.error e) => (.error e, (doLoginHTTP sc st).2)
    | .ok (.ok tok) =>
      if tok = "" then (.error .emptyToken, (doLoginHTTP sc st).2)
      else (.ok (), { (doLoginHTTP sc st).2 with token := tok })

/-- The retry path of `Client.Issue` after the first issuance attempt
failed with an auth-class error: clear the cached token, `ensureToken`,
retry the issuance call once, surfacing any failure. -/
def clientIssueRetry (c : VClient) (sc : VaultScript) (st2 : VState) :
    Except VErr Nat × VState :=
  match (ensureToken c sc st2).1 with
  | .error e2 => (.error e2, (ensureToken c sc st2).2)
  | .ok _ =>
    match (doIssueHTTP sc (ensureToken c sc st2).2).1 with
    | .error e2 => (.error e2, (doIssueHTTP sc (ensureToken c sc st2).2).2)
    | .ok dec => (dec, (doIssueHTTP sc (ensureToken c sc st2).2).2)

/-- `Client.Issue` from a given starting state: validation, `ensureToken`,
the issuance call, and the single auth-failure retry path. -/
def clientIssue (c : VClient) (pkiPath role : String) (sc : VaultScript)
    (st0 : VState) : Except VErr Nat × VState :=
  if c.addr = "" then (.error .addrRequired, st0)
  else if pkiPath = "" then (.error .pkiPathRequired, st0)
  else if role = "" then (.error .roleRequired, st0)
  else
    match (ensureToken c sc st0).1 with
    | .error e => (.error e, (ensureToken c sc st0).2)
    | .ok _ =>
      match (doIssueHTTP sc (ensureToken c sc st0).2).1 with
      | .ok dec => (dec, (doIssueHTTP sc (ensureToken c sc st0).2).2)
      | .error e =>
        if isAuthError e = true ∧ c.roleID ≠ "" ∧ c.secretID ≠ "" then
          clientIssueRetry c sc
            { (doIssueHTTP sc (ensureToken c sc st0).2).2 with token := "" }
        else (.error e, (doIssueHTTP sc (ensureToken c sc st0).2).2)

/-- `Client.Issue` as called from the outside: the cached token starts as
the configured `Token` field and no backend call has happened yet. -/
def clientIssueRun (c : VClient) (pkiPath role : String) (sc : VaultScript) :
    Except VErr Nat × VState :=
  clientIssue c pkiPath role sc { token := c.token, issueCalls := 0, loginCalls := 0 }

/-- Collapse a scripted HTTP+decode outcome to the value `Client.Issue`
returns for that attempt (`decodeIssue(resp)` on HTTP success, the HTTP
error otherwise). -/
def flattenOutcome : Except VErr (Except VErr Nat) → Except VErr Nat
  | .error e => .error e
  | .ok dec => dec

/-! ## vault: issuer (issuer.go, parse.go, types.go)

PEM blobs are abstracted by their parse outcome: a CA blob by the list of
certificates `AppendCertsFromPEM` would add (empty meaning the call reports
failure), the leaf blob by the `NotAfter` value `parseNotAfter` extracts
(`none` meaning the PEM or certificate fails to parse). -/

/-- A PEM blob of CA material. -/
structure CAPem where
  certs : List Nat
deriving DecidableEq

/-- The leaf certificate PEM, abstracted by its parsed validity field. -/
structure LeafPem where
  notAfterField : Option Int
deriving DecidableEq

/-- The decoded issuance response (`IssueResponse`), together with the
outcome of `tls.X509KeyPair` on its certificate/key fields.  `issuingCA =
none` models `IssuingCA == ""`. -/
structure VResp where
  certificate : LeafPem
  keyPairOk : Bool
  caChain : List CAPem
  issuingCA : Option CAPem
deriving DecidableEq

/-- Issuer-level error values from issuer.go / parse.go. -/
inductive IssuerErr
  | clientErr (e : VErr)
  | keyPair
  | chainPem
  | issuingPem
  | missingCA
  | leafParse
deriving DecidableEq

/-- The bundle built by `Issuer.Issue`: trust pool and leaf expiry. -/
structure IBundle where
  pool : List Nat
  notAfter : Int
deriving DecidableEq

/-- The `for _, pem := range resp.CAChain` pool-building loop: every entry
must contribute at least one certificate or the issuance fails. -/
def appendChain (pool : List Nat) : List CAPem → Except IssuerErr (List Nat)
  | [] => .ok pool
  | c :: rest =>
    if c.certs = [] then .error .chainPem
    else appendChain (pool ++ c.certs) rest

/-- `parseNotAfter` from parse.go on the abstracted leaf PEM. -/
def parseNotAfter (leaf : LeafPem) : Except IssuerErr Int :=
  match leaf.notAfterField with
  | none => .error .leafParse
  | some t => .ok t

/-- The final lines of `Issuer.Issue`: parse the leaf expiry and assemble
the bundle. -/
def finishBundle (pool : List Nat) (leaf : LeafPem) : Except IssuerErr IBundle :=
  match parseNotAfter leaf with
  | .error e => .error e
  | .ok t => .ok ⟨pool, t⟩

/-- `Issuer.Issue` from the decoded response onward: key pair check, chain
pool, issuing-CA fallback when the chain list is empty, the `RequireCA`
policy check, and the leaf expiry parse. -/
def issuerBuild (requireCA : Bool) (resp : VResp) : Except IssuerErr IBundle :=
  if resp.keyPairOk = false then .error .keyPair
  else
    match appendChain [] resp.caChain with
    | .error e => .error e
    | .ok pool0 =>
      match
        (if resp.caChain = [] then
          match resp.issuingCA with
          | some c =>
            if c.certs = [] then (.error .issuingPem : Except IssuerErr (List Nat))
            else .ok (pool0 ++ c.certs)
          | none => .ok pool0
        else .ok pool0) with
      | .error e => .error e
      | .ok pool =>
        if requireCA = true ∧ resp.caChain = [] ∧ resp.issuingCA = none then
          .error .missingCA
        else finishBundle pool resp.certificate

/-- The `IssueRequest` built by `Issuer.Issue`: the TTL field is present
only when the configured TTL is positive (`i.TTL > 0`). -/
structure VIssueRequest where
  commonName : String
  altNames : List String
  uriSANs : List String
  ttl : Option String
deriving DecidableEq

def buildIssueRequest (commonName : String) (altNames uriSANs : List String)
    (ttl : Int) : VIssueRequest :=
  { commonName := commonName, altNames := altNames, uriSANs := uriSANs,
    ttl := if 0 < ttl then some (toString ttl) else none }

/-- `Issuer.Issue` end to end against a backend: the backend maps the built
request to a decoded response; everything after the response is
`issuerBuild`. -/
def issuerIssue (requireCA : Bool) (commonName : String)
    (altNames uriSANs : List String) (ttl : Int)
    (backend : VIssueRequest → Except VErr VResp) : Except IssuerErr IBundle :=
  match backend (buildIssueRequest commonName altNames uriSANs ttl) with
  | .error e => .error (.clientErr e)
  | .ok resp => issuerBuild requireCA resp

/-! ## Theorems: C1, C2, C10 -/

theorem runRefreshes_none_iff (attempts : List (Except IssueErr CmBundle × Int))
    (st : MgrState) :
    runRefreshes st attempts = none ↔
      (st = none ∧ ∀ a ∈ attempts, ∃ e, a.1 = .error e) := by
  induction attempts generalizing st with
  | nil => simp [runRefreshes]
  | cons hd tl ih =>
    obtain ⟨r, t⟩ := hd
    cases r with
    | error e =>
      simp only [runRefreshes, Manager.refresh, ih]
      constructor
      · rintro ⟨h1, h2⟩
        exact ⟨h1, by
          rintro a ha
          rcases List.mem_cons.mp ha with rfl | ha
          · exact ⟨e, rfl⟩
          · exact h2 a ha⟩
      · rintro ⟨h1, h2⟩
        exact ⟨h1, fun a ha => h2 a (List.mem_cons_of_mem _ ha)⟩
    | ok b =>
      simp only [runRefreshes, Manager.refresh, ih]
      constructor
      · rintro ⟨h1, _⟩
        exact absurd h1 (by simp)
      · rintro ⟨_, h2⟩
        obtain ⟨e, he⟩ := h2 (.ok b, t) (List.mem_cons_self _ _)
        exact absurd he (by simp)

/-- C1: before any successful refresh `Current` fails with `ErrNotReady`;
once a refresh has succeeded the stored state is never again `none`, so
`Current` never again returns `ErrNotReady`; and a refresh whose issuance
fails leaves the stored bundle exactly as it was, so `Current` returns the
prior bundle unchanged. -/
theorem c1_manager_state_machine (attempts : List (Except IssueErr CmBundle × Int))
    (b : CmBundle) (e : IssueErr) (t : Int) :
    (Manager.Current none = .error .notReady) ∧
    (runRefreshes none attempts = none ↔ ∀ a ∈ attempts, ∃ e₀, a.1 = .error e₀) ∧
    ((Manager.refresh (some b) (.error e) t).1 = some b ∧
      Manager.Current (Manager.refresh (some b) (.error e) t).1 = .ok b) ∧
    (∀ st, runRefreshes st attempts ≠ none →
      ∀ more, (∀ a ∈ more, ∃ e₀, a.1 = .error e₀) →
        ∃ b₀, Manager.Current (runRefreshes (runRefreshes st attempts) more) = .ok b₀) := by
  refine ⟨rfl, ?_, ⟨rfl, rfl⟩, ?_⟩
  · rw [runRefreshes_none_iff]
    simp
  · intro st hne more hmore
    have h2 : runRefreshes (runRefreshes st attempts) more ≠ none := by
      intro hcon
      exact hne ((runRefreshes_none_iff more _).mp hcon).1
    cases hcase : runRefreshes (runRefreshes st attempts) more with
    | none => exact absurd hcase h2
    | some b₀ => exact ⟨b₀, by simp [Manager.Current]⟩

theorem c1_manager_state_machine_witness :
    runRefreshes none [((.error (.fail "boom") : Except IssueErr CmBundle), (0 : Int))] =
      none :=
  (c1_manager_state_machine [(.error (.fail "boom"), 0)] ⟨1, 5⟩ (.fail "x") 0).2.1.mpr
    (by
      rintro a ha
      rw [List.mem_singleton] at ha
      subst ha
      exact ⟨.fail "boom", rfl⟩)

/-- C2: a successful refresh at time `t0` of a bundle expiring at `t0 + L`
schedules the next refresh at `t0 + (2·L)/3` (two-thirds of the lifetime,
integer nanoseconds), and the `Run` loop's wait before jitter is
`max (next - now) MinRefresh`. -/
theorem c2_refresh_schedule (t0 : Int) (L : Nat) (b : CmBundle) (st : MgrState)
    (next now minR : Int) :
    (refreshNext t0 (t0 + L) = t0 + ((2 * L) / 3 : Nat)) ∧
    (b.notAfter = t0 + L →
      (Manager.refresh st (.ok b) t0).2 = .ok (b, t0 + ((2 * L) / 3 : Nat))) ∧
    (runWait next now minR = max (next - now) minR) := by
  have hmain : refreshNext t0 (t0 + L) = t0 + ((2 * L) / 3 : Nat) := by
    unfold refreshNext
    have h1 : (t0 + L - t0) * 2 = ((2 * L : Nat) : Int) := by push_cast; ring
    rw [h1]
    have h2 : ((2 * L : Nat) : Int).tdiv ((3 : Nat) : Int) = ((2 * L) / 3 : Nat) := by
      rw [Int.ofNat_tdiv]
    exact congrArg (t0 + ·) h2
  refine ⟨hmain, ?_, ?_⟩
  · intro hb
    simp only [Manager.refresh, hb, hmain]
  · unfold runWait
    rcases le_or_lt minR (next - now) with h | h
    · rw [if_neg (not_lt.mpr h), max_eq_left h]
    · rw [if_pos h, max_eq_right h.le]

theorem c2_refresh_schedule_witness :
    (Manager.refresh none (.ok ⟨0, 190⟩) 100).2 =
      .ok (⟨0, 190⟩, 100 + ((2 * 90) / 3 : Nat)) :=
  (c2_refresh_schedule 100 90 ⟨0, 190⟩ none 160 100 30).2.1 (by decide)

/-- C10: `NewWithOptions` replaces `MinRefresh ≤ 0` by 30s, `ErrorBackoff ≤ 0`
by 15s, `HookTimeout ≤ 0` by 2s, and a nil `Now` by the real-time clock, so
every constructed manager has strictly positive intervals and a usable clock;
in particular the zero `Options` yields exactly these defaults. -/
theorem c10_option_defaults (o : Options) :
    (0 < (NewWithOptions o).minRefresh ∧
     0 < (NewWithOptions o).errorBackoff ∧
     0 < (NewWithOptions o).hookTimeout) ∧
    (o.minRefresh ≤ 0 → (NewWithOptions o).minRefresh = 30000000000) ∧
    (o.errorBackoff ≤ 0 → (NewWithOptions o).errorBackoff = 15000000000) ∧
    (o.hookTimeout ≤ 0 → (NewWithOptions o).hookTimeout = 2000000000) ∧
    (o.now = none → (NewWithOptions o).now = .system) ∧
    (NewWithOptions zeroOptions =
      { minRefresh := 30000000000, errorBackoff := 15000000000,
        hookTimeout := 2000000000, now := .system }) := by
  refine ⟨⟨?_, ?_, ?_⟩, ?_, ?_, ?_, ?_, rfl⟩
  · by_cases h : o.minRefresh ≤ 0 <;> simp [NewWithOptions, h] <;> omega
  · by_cases h : o.errorBackoff ≤ 0 <;> simp [NewWithOptions, h] <;> omega
  · by_cases h : o.hookTimeout ≤ 0 <;> simp [NewWithOptions, h] <;> omega
  · intro h; simp [NewWithOptions, h]
  · intro h; simp [NewWithOptions, h]
  · intro h; simp [NewWithOptions, h]
  · intro h; simp [NewWithOptions, h]

theorem c10_option_defaults_witness :
    NewWithOptions zeroOptions =
      { minRefresh := 30000000000, errorBackoff := 15000000000,
        hookTimeout := 2000000000, now := .system } :=
  (c10_option_defaults zeroOptions).2.2.2.2.2

/-! ## Theorems: C3, C4 -/

theorem segLoop_eq_pairsOk :
    ∀ (ps vs : List (List Char)), ps.length ≤ vs.length →
      segLoop ps vs = specPairsOk ps vs
  | [], vs, _ => by simp [segLoop, specPairsOk]
  | p :: ps, [], h => by simp at h
  | p :: ps, v :: vs, h => by
    have ih := segLoop_eq_pairsOk ps vs (by simpa using h)
    simp only [segLoop, specPairsOk, List.zip_cons_cons, List.all_cons, specSegOk] at ih ⊢
    rw [ih]

theorem matchSegsCore_true_eq (ps vs : List (List Char)) :
    matchSegsCore ps vs true =
      (decide ((specDropTrailingEmpty ps).length ≤ vs.length) &&
        specPairsOk (specDropTrailingEmpty ps) vs) := by
  by_cases hlast : ps.getLast? = some ([] : List Char)
  · have hpne : ps ≠ [] := by
      intro h
      rw [h] at hlast
      simp at hlast
    have hpos : 0 < ps.length := List.length_pos.mpr hpne
    have hlen : ps.dropLast.length = ps.length - 1 := List.length_dropLast ps
    by_cases hlt : vs.length < ps.dropLast.length
    · have hlt' : vs.length < ps.length - 1 := by omega
      have h1 : ¬ ps.length ≤ vs.length + 1 := by omega
      simp [matchSegsCore, specDropTrailingEmpty, hlast, hlt', h1]
    · have hle := not_lt.mp hlt
      have hlt' : ¬ vs.length < ps.length - 1 := by omega
      have h1 : ps.length ≤ vs.length + 1 := by omega
      simp [matchSegsCore, specDropTrailingEmpty, hlast, hlt', h1,
        segLoop_eq_pairsOk _ _ hle]
  · by_cases hlt : vs.length < ps.length
    · simp [matchSegsCore, specDropTrailingEmpty, hlast, hlt, not_le.mpr hlt]
    · have hle := not_lt.mp hlt
      simp [matchSegsCore, specDropTrailingEmpty, hlast, hlt, hle,
        segLoop_eq_pairsOk _ _ hle]

theorem matchSegsCore_false_eq (ps vs : List (List Char)) :
    matchSegsCore ps vs false =
      (decide (ps.length = vs.length) && specPairsOk ps vs) := by
  by_cases heq : ps.length = vs.length
  · simp [matchSegsCore, heq, segLoop_eq_pairsOk _ _ heq.le]
  · simp [matchSegsCore, heq]

/-- C3: `matchGlob` coincides with the restricted glob described by the
specification on every pattern and value: empty pattern or value never
match, more than one `*` or a non-final `*` never matches, a trailing `*`
demands a segment-prefix match (with the trailing empty pattern segment
dropped and the pattern's segment count not exceeding the value's), and
without a trailing `*` the segment counts must agree exactly, `+` matching
any single non-empty segment and every other segment matching literally. -/
theorem c3_matchGlob_eq_spec (pattern value : List Char) :
    matchGlob pattern value = globSpec pattern value := by
  rcases List.eq_nil_or_concat pattern with hp | ⟨front, a, hpat⟩
  · subst hp
    simp [matchGlob, globSpec]
  · rw [List.concat_eq_append] at hpat
    subst hpat
    by_cases hv : value = []
    · simp [matchGlob, globSpec, hv]
    · have hguard1 : ¬ (front ++ [a] = [] ∨ value = []) := by simp [hv]
      have hlast : (front ++ [a]).getLast? = some a := List.getLast?_concat front
      have hdrop : (front ++ [a]).dropLast = front := List.dropLast_concat
      unfold matchGlob globSpec
      rw [if_neg hguard1, if_neg hguard1, hdrop]
      by_cases hcount : 1 < (front ++ [a]).count '*'
      · rw [if_pos hcount, if_pos hcount]
      · rw [if_neg hcount, if_neg hcount]
        have hcount' : (front ++ [a]).count '*' ≤ 1 := not_lt.mp hcount
        by_cases ha : a = '*'
        · -- trailing star
          subst ha
          have hsuffix : hasSuffixStar (front ++ ['*']) = true := by
            simp [hasSuffixStar, hlast]
          have hfrontcount : front.count '*' = 0 := by
            have hsum : (front ++ ['*']).count '*' = front.count '*' + 1 := by
              simp [List.count_append]
            omega
          have hnotmem : ¬ '*' ∈ front := List.count_eq_zero.mp hfrontcount
          have hguard3i : ¬ ((front ++ ['*']).contains '*' = true ∧
              hasSuffixStar (front ++ ['*']) = false) := by
            rintro ⟨_, hfalse⟩
            rw [hsuffix] at hfalse
            simp at hfalse
          have hi4 : hasSuffixStar (front ++ ['*']) = true := hsuffix
          have hs4 : (front ++ ['*']).getLast? = some '*' := hlast
          have htrim : trimSuffixStar (front ++ ['*']) = front := by
            rw [trimSuffixStar, if_pos hi4, hdrop]
          rw [if_neg hguard3i, if_neg hnotmem, if_pos hi4, if_pos hs4, htrim,
            matchSegments, matchSegsCore_true_eq]
        · -- no trailing star
          have hsuffix : hasSuffixStar (front ++ [a]) = false := by
            simp only [hasSuffixStar, hlast]
            simp [ha]
          have hs4 : ¬ ((front ++ [a]).getLast? = some '*') := by
            rw [hlast]
            simp [ha]
          by_cases hmem : '*' ∈ front ++ [a]
          · have hmemfront : '*' ∈ front := by
              rcases List.mem_append.mp hmem with h | h
              · exact h
              · simp at h
                exact absurd h.symm ha
            have hguard3i : (front ++ [a]).contains '*' = true ∧
                hasSuffixStar (front ++ [a]) = false := by
              refine ⟨?_, hsuffix⟩
              simp [hmem]
            rw [if_pos hguard3i, if_pos hmemfront]
          · have hmemfront : ¬ '*' ∈ front := fun h =>
              hmem (List.mem_append.mpr (Or.inl h))
            have hguard3i : ¬ ((front ++ [a]).contains '*' = true ∧
                hasSuffixStar (front ++ [a]) = false) := by
              rintro ⟨h1, _⟩
              simp at h1
              rcases h1 with h | h
              · exact hmemfront h
              · exact ha h.symm
            have hi4 : ¬ (hasSuffixStar (front ++ [a]) = true) := by
              rw [hsuffix]
              simp
            rw [if_neg hguard3i, if_neg hmemfront, if_neg hi4, if_neg hs4,
              matchSegments, matchSegsCore_false_eq]

/-- C4: `VerifyPeerCertificate` accepts exactly when the first verified
chain is non-empty and its leaf carries a spiffe-scheme URI whose string
matches an exact rule, a prefix rule, or a glob rule; it rejects with the
no-verified-chain error when there is no chain or the first chain is empty,
and otherwise accepts or rejects with the not-allowed error. -/
theorem c4_verify_peer (a : Authorizer) (chains : List (List PeerCert)) :
    (VerifyPeerCertificate a chains = .ok () ↔
      ∃ leaf c rest, chains = (leaf :: c) :: rest ∧
        ∃ u ∈ leaf.uris, u.scheme = spiffeScheme ∧
          (u.str ∈ a.allowedExact ∨
           (∃ p ∈ a.allowedPrefixRules, p.isPrefixOf u.str = true) ∨
           (∃ g ∈ a.allowedGlobs, matchGlob g u.str = true))) ∧
    ((chains = [] ∨ ∃ rest, chains = [] :: rest) →
      VerifyPeerCertificate a chains = .error .noVerifiedChain) ∧
    (∀ leaf c rest, chains = (leaf :: c) :: rest →
      VerifyPeerCertificate a chains = .ok () ∨
        VerifyPeerCertificate a chains = .error .notAllowed) := by
  refine ⟨?_, ?_, ?_⟩
  · cases chains with
    | nil => simp [VerifyPeerCertificate]
    | cons chain0 rest =>
      cases chain0 with
      | nil => simp [VerifyPeerCertificate]
      | cons leaf c =>
        by_cases hmatch :
            leaf.uris.any (fun u => u.scheme == spiffeScheme && uriAllowed a u.str) = true
        · rw [VerifyPeerCertificate, if_pos hmatch]
          simp only [true_iff]
          refine ⟨leaf, c, rest, rfl, ?_⟩
          obtain ⟨u, hu, hok⟩ := List.any_eq_true.mp hmatch
          rw [Bool.and_eq_true, beq_iff_eq] at hok
          refine ⟨u, hu, hok.1, ?_⟩
          have := hok.2
          rw [uriAllowed, Bool.or_eq_true, Bool.or_eq_true] at this
          rcases this with (h | h) | h
          · obtain ⟨ex, hex, heq⟩ := List.any_eq_true.mp h
            rw [beq_iff_eq] at heq
            exact Or.inl (heq ▸ hex)
          · obtain ⟨p, hp, hpre⟩ := List.any_eq_true.mp h
            exact Or.inr (Or.inl ⟨p, hp, hpre⟩)
          · obtain ⟨g, hg, hglob⟩ := List.any_eq_true.mp h
            exact Or.inr (Or.inr ⟨g, hg, hglob⟩)
        · rw [VerifyPeerCertificate, if_neg hmatch]
          simp only [reduceCtorEq, false_iff]
          rintro ⟨leaf', c', rest', heq, u, hu, hscheme, hrule⟩
          rw [List.cons.injEq, List.cons.injEq] at heq
          obtain ⟨⟨rfl, rfl⟩, rfl⟩ := heq
          apply hmatch
          refine List.any_eq_true.mpr ⟨u, hu, ?_⟩
          rw [Bool.and_eq_true, beq_iff_eq]
          refine ⟨hscheme, ?_⟩
          rw [uriAllowed, Bool.or_eq_true, Bool.or_eq_true]
          rcases hrule with h | h | h
          · exact Or.inl (Or.inl (List.any_eq_true.mpr ⟨u.str, h, by rw [beq_iff_eq]⟩))
          · obtain ⟨p, hp, hpre⟩ := h
            exact Or.inl (Or.inr (List.any_eq_true.mpr ⟨p, hp, hpre⟩))
          · obtain ⟨g, hg, hglob⟩ := h
            exact Or.inr (List.any_eq_true.mpr ⟨g, hg, hglob⟩)
  · rintro (rfl | ⟨rest, rfl⟩)
    · rfl
    · rfl
  · rintro leaf c rest rfl
    by_cases hmatch :
        (leaf.uris.any (fun u => u.scheme == spiffeScheme && uriAllowed a u.str)) = true
    · exact Or.inl (by rw [VerifyPeerCertificate, if_pos hmatch])
    · exact Or.inr (by rw [VerifyPeerCertificate, if_neg hmatch])

theorem c4_verify_peer_witness :
    VerifyPeerCertificate
        ⟨["spiffe://corp/x".toList], [], []⟩
        [[⟨[⟨spiffeScheme, "spiffe://corp/x".toList⟩]⟩]] = .ok () :=
  (c4_verify_peer ⟨["spiffe://corp/x".toList], [], []⟩
      [[⟨[⟨spiffeScheme, "spiffe://corp/x".toList⟩]⟩]]).1.mpr
    ⟨⟨[⟨spiffeScheme, "spiffe://corp/x".toList⟩]⟩, [], [], rfl,
      ⟨spiffeScheme, "spiffe://corp/x".toList⟩, by simp, rfl,
      Or.inl (by simp)⟩

/-! ## Theorems: C5, C9 -/

theorem ensureToken_issueCalls (c : VClient) (sc : VaultScript) (st : VState) :
    (ensureToken c sc st).2.issueCalls = st.issueCalls := by
  unfold ensureToken
  by_cases h1 : st.token ≠ ""
  · rw [if_pos h1]
  · rw [if_neg h1]
    by_cases h2 : c.roleID = "" ∨ c.secretID = ""
    · rw [if_pos h2]
    · rw [if_neg h2]
      cases hl : (doLoginHTTP sc st).1 with
      | error e => rfl
      | ok dec =>
        cases dec with
        | error e => rfl
        | ok tok =>
          by_cases h3 : tok = ""
          · simp [h3, doLoginHTTP]
          · simp [h3, doLoginHTTP]

theorem doIssueHTTP_issueCalls (sc : VaultScript) (st : VState) :
    (doIssueHTTP sc st).2.issueCalls ≤ st.issueCalls + 1 := by
  unfold doIssueHTTP
  by_cases h : st.token = ""
  · simp [h]
  · simp [h]

theorem clientIssueRetry_issueCalls_le (c : VClient) (sc : VaultScript) (st2 : VState) :
    (clientIssueRetry c sc st2).2.issueCalls ≤ st2.issueCalls + 1 := by
  unfold clientIssueRetry
  have hens : (ensureToken c sc st2).2.issueCalls = st2.issueCalls :=
    ensureToken_issueCalls c sc st2
  cases hres3 : (ensureToken c sc st2).1 with
  | error e2 =>
    show (ensureToken c sc st2).2.issueCalls ≤ st2.issueCalls + 1
    omega
  | ok u =>
    have hdi := doIssueHTTP_issueCalls sc (ensureToken c sc st2).2
    cases hres4 : (doIssueHTTP sc (ensureToken c sc st2).2).1 with
    | error e2 =>
      show (doIssueHTTP sc (ensureToken c sc st2).2).2.issueCalls ≤ st2.issueCalls + 1
      omega
    | ok dec =>
      show (doIssueHTTP sc (ensureToken c sc st2).2).2.issueCalls ≤ st2.issueCalls + 1
      omega

theorem clientIssue_issueCalls_le (c : VClient) (p r : String) (sc : VaultScript)
    (st0 : VState) :
    (clientIssue c p r sc st0).2.issueCalls ≤ st0.issueCalls + 2 := by
  unfold clientIssue
  by_cases ha : c.addr = ""
  · rw [if_pos ha]
    exact Nat.le_add_right _ _
  rw [if_neg ha]
  by_cases hp : p = ""
  · rw [if_pos hp]
    exact Nat.le_add_right _ _
  rw [if_neg hp]
  by_cases hr : r = ""
  · rw [if_pos hr]
    exact Nat.le_add_right _ _
  rw [if_neg hr]
  have hens : (ensureToken c sc st0).2.issueCalls = st0.issueCalls :=
    ensureToken_issueCalls c sc st0
  cases hres : (ensureToken c sc st0).1 with
  | error e =>
    show (ensureToken c sc st0).2.issueCalls ≤ st0.issueCalls + 2
    omega
  | ok u =>
    have hdi := doIssueHTTP_issueCalls sc (ensureToken c sc st0).2
    cases hres2 : (doIssueHTTP sc (ensureToken c sc st0).2).1 with
    | ok dec =>
      show (doIssueHTTP sc (ensureToken c sc st0).2).2.issueCalls ≤ st0.issueCalls + 2
      omega
    | error e =>
      show (if isAuthError e = true ∧ c.roleID ≠ "" ∧ c.secretID ≠ "" then
          clientIssueRetry c sc
            { (doIssueHTTP sc (ensureToken c sc st0).2).2 with token := "" }
        else
          (.error e, (doIssueHTTP sc (ensureToken c sc st0).2).2)).2.issueCalls ≤
        st0.issueCalls + 2
      by_cases hauth : isAuthError e = true ∧ c.roleID ≠ "" ∧ c.secretID ≠ ""
      · rw [if_pos hauth]
        have hretry := clientIssueRetry_issueCalls_le c sc
          { (doIssueHTTP sc (ensureToken c sc st0).2).2 with token := "" }
        have hupd : ({ (doIssueHTTP sc (ensureToken c sc st0).2).2 with
            token := "" } : VState).issueCalls =
            (doIssueHTTP sc (ensureToken c sc st0).2).2.issueCalls := rfl
        omega
      · rw [if_neg hauth]
        show (doIssueHTTP sc (ensureToken c sc st0).2).2.issueCalls ≤ st0.issueCalls + 2
        omega

/-- C5: per `Client.Issue` call at most two backend issuance attempts are
performed; a first attempt failing with an auth-class error while both
RoleID and SecretID are configured clears the cached token, re-authenticates
once and retries exactly once more, surfacing the second attempt's outcome
as is; a first-attempt failure that is not auth-class, or arrives without
both exchange credentials, is returned immediately after a single attempt
with no re-login. -/
theorem c5_issue_retry_once (c : VClient) (pkiPath role : String) (sc : VaultScript)
    (e : VErr) (tok : String) :
    ((clientIssueRun c pkiPath role sc).2.issueCalls ≤ 2) ∧
    (c.addr ≠ "" → pkiPath ≠ "" → role ≠ "" → c.token ≠ "" →
      c.roleID ≠ "" → c.secretID ≠ "" →
      sc.issue 0 = .error e → isAuthError e = true →
      sc.login 0 = .ok (.ok tok) → tok ≠ "" →
      clientIssueRun c pkiPath role sc =
        (flattenOutcome (sc.issue 1), ⟨tok, 2, 1⟩)) ∧
    (c.addr ≠ "" → pkiPath ≠ "" → role ≠ "" → c.token ≠ "" →
      sc.issue 0 = .error e →
      ¬ (isAuthError e = true ∧ c.roleID ≠ "" ∧ c.secretID ≠ "") →
      clientIssueRun c pkiPath role sc = (.error e, ⟨c.token, 1, 0⟩)) := by
  refine ⟨?_, ?_, ?_⟩
  · have h := clientIssue_issueCalls_le c pkiPath role sc
      { token := c.token, issueCalls := 0, loginCalls := 0 }
    simpa [clientIssueRun] using h
  · intro ha hp hr hc hrid hsid hi0 hae hl0 htok
    have hauth : isAuthError e = true ∧ c.roleID ≠ "" ∧ c.secretID ≠ "" :=
      ⟨hae, hrid, hsid⟩
    simp only [clientIssueRun, clientIssue, ensureToken, clientIssueRetry,
      doIssueHTTP, doLoginHTTP]
    simp only [hi0, hl0]
    simp [ha, hp, hr, hc, hrid, hsid, hae, htok]
    cases hi1 : sc.issue 1 with
    | error e2 => simp [hi0, hl0, hae, htok, hi1, flattenOutcome]
    | ok dec => simp [hi0, hl0, hae, htok, hi1, flattenOutcome]
  · intro ha hp hr hc hi0 hnot
    simp only [clientIssueRun, clientIssue, ensureToken, doIssueHTTP, doLoginHTTP]
    simp [ha, hp, hr, hc, hnot, hi0]

theorem c5_issue_retry_once_witness :
    clientIssueRun ⟨"http://v", "bad", "rid", "sid"⟩ "pki" "role"
        ⟨fun n => if n = 0 then .error (.http 403 "permission denied")
                  else .ok (.ok 7),
         fun _ => .ok (.ok "good")⟩ =
      (.ok 7, ⟨"good", 2, 1⟩) := by
  have h := (c5_issue_retry_once ⟨"http://v", "bad", "rid", "sid"⟩ "pki" "role"
      ⟨fun n => if n = 0 then .error (.http 403 "permission denied")
                else .ok (.ok 7),
       fun _ => .ok (.ok "good")⟩
      (.http 403 "permission denied") "good").2.1
    (by decide) (by decide) (by decide) (by decide) (by decide) (by decide)
    rfl (by decide) rfl (by decide)
  exact h

/-- C9: `ensureToken` with a held token is a no-op performing no backend
request; with no token and a missing RoleID or SecretID it fails with
`ErrAuthRequired`; a login response carrying an empty `client_token` is an
error and stores nothing; a successful login stores the returned token. -/
theorem c9_ensure_token (c : VClient) (sc : VaultScript) (st : VState) (tok : String) :
    (st.token ≠ "" → ensureToken c sc st = (.ok (), st)) ∧
    (st.token = "" → (c.roleID = "" ∨ c.secretID = "") →
      ensureToken c sc st = (.error .authRequired, st)) ∧
    (st.token = "" → c.roleID ≠ "" → c.secretID ≠ "" →
      sc.login st.loginCalls = .ok (.ok "") →
      ensureToken c sc st =
        (.error .emptyToken, { st with loginCalls := st.loginCalls + 1 })) ∧
    (st.token = "" → c.roleID ≠ "" → c.secretID ≠ "" →
      sc.login st.loginCalls = .ok (.ok tok) → tok ≠ "" →
      ensureToken c sc st =
        (.ok (), { st with token := tok, loginCalls := st.loginCalls + 1 })) := by
  refine ⟨?_, ?_, ?_, ?_⟩
  · intro h
    rw [ensureToken, if_pos h]
  · intro h hcred
    rw [ensureToken, if_neg (not_not_intro h), if_pos hcred]
  · intro h hrid hsid hl
    have hcred : ¬ (c.roleID = "" ∨ c.secretID = "") := by
      rintro (hr | hs)
      · exact hrid hr
      · exact hsid hs
    simp only [ensureToken, doLoginHTTP]
    simp [h, hcred, hl]
  · intro h hrid hsid hl htok
    have hcred : ¬ (c.roleID = "" ∨ c.secretID = "") := by
      rintro (hr | hs)
      · exact hrid hr
      · exact hsid hs
    simp only [ensureToken, doLoginHTTP]
    simp [h, hcred, hl, htok]

theorem c9_ensure_token_witness :
    ensureToken ⟨"http://v", "", "rid", "sid"⟩
        ⟨fun _ => .ok (.ok 7), fun _ => .ok (.ok "tok")⟩
        ⟨"", 0, 0⟩ =
      (.ok (), ⟨"tok", 0, 1⟩) :=
  (c9_ensure_token ⟨"http://v", "", "rid", "sid"⟩
      ⟨fun _ => .ok (.ok 7), fun _ => .ok (.ok "tok")⟩
      ⟨"", 0, 0⟩ "tok").2.2.2
    rfl (by decide) (by decide) rfl (by decide)

/-! ## Theorems: C6, C7 -/

theorem appendChain_all_ok (chain : List CAPem) :
    ∀ pool, (∀ x ∈ chain, x.certs ≠ []) →
      appendChain pool chain = .ok (pool ++ (chain.map CAPem.certs).flatten) := by
  induction chain with
  | nil => intro pool _; simp [appendChain]
  | cons hd tl ih =>
    intro pool hall
    have hhd : hd.certs ≠ [] := hall hd (List.mem_cons_self _ _)
    rw [appendChain, if_neg hhd, ih (pool ++ hd.certs)
      (fun x hx => hall x (List.mem_cons_of_mem _ hx))]
    simp

theorem appendChain_err (chain : List CAPem) :
    ∀ pool, (∃ x ∈ chain, x.certs = []) →
      appendChain pool chain = .error .chainPem := by
  induction chain with
  | nil => rintro pool ⟨x, hx, _⟩; simp at hx
  | cons hd tl ih =>
    rintro pool ⟨x, hx, hcerts⟩
    by_cases hhd : hd.certs = []
    · rw [appendChain, if_pos hhd]
    · rcases List.mem_cons.mp hx with rfl | hx'
      · exact absurd hcerts hhd
      · rw [appendChain, if_neg hhd, ih _ ⟨x, hx', hcerts⟩]

theorem finishBundle_ok (pool : List Nat) (leaf : LeafPem) (b : IBundle) :
    finishBundle pool leaf = .ok b →
      leaf.notAfterField = some b.notAfter ∧ b.pool = pool := by
  unfold finishBundle parseNotAfter
  cases hfield : leaf.notAfterField with
  | none =>
    intro h
    simp at h
  | some t =>
    intro h
    simp only [Except.ok.injEq] at h
    rw [← h]
    exact ⟨rfl, rfl⟩

theorem issuerBuild_ok_notAfter (requireCA : Bool) (resp : VResp) (b : IBundle) :
    issuerBuild requireCA resp = .ok b →
      resp.certificate.notAfterField = some b.notAfter := by
  intro h
  unfold issuerBuild at h
  split at h
  · exact absurd h (by simp)
  · split at h
    · exact absurd h (by simp)
    · split at h
      · exact absurd h (by simp)
      · split at h
        · exact absurd h (by simp)
        · exact (finishBundle_ok _ _ _ h).1

/-- C6: `Issuer.Issue` builds the trust pool from every `ca_chain` entry;
the `issuing_ca` field is consulted only when the chain list is empty; with
`RequireCA` set and neither chain nor issuing CA present the issuance
fails; with `RequireCA` unset the same response succeeds with an empty
pool; and CA material that fails to parse (a chain entry or the issuing CA
contributing no certificate) fails the whole issuance. -/
theorem c6_trust_pool (requireCA : Bool) (resp : VResp) (t : Int) (c : CAPem) :
    (resp.keyPairOk = true → resp.certificate.notAfterField = some t →
      resp.caChain ≠ [] → (∀ x ∈ resp.caChain, x.certs ≠ []) →
      issuerBuild requireCA resp = .ok ⟨(resp.caChain.map CAPem.certs).flatten, t⟩) ∧
    (resp.keyPairOk = true → resp.certificate.notAfterField = some t →
      resp.caChain = [] → resp.issuingCA = some c → c.certs ≠ [] →
      issuerBuild requireCA resp = .ok ⟨c.certs, t⟩) ∧
    (resp.keyPairOk = true → requireCA = true → resp.caChain = [] →
      resp.issuingCA = none →
      issuerBuild requireCA resp = .error .missingCA) ∧
    (resp.keyPairOk = true → resp.certificate.notAfterField = some t →
      requireCA = false → resp.caChain = [] → resp.issuingCA = none →
      issuerBuild requireCA resp = .ok ⟨[], t⟩) ∧
    ((∃ x ∈ resp.caChain, x.certs = []) → resp.keyPairOk = true →
      issuerBuild requireCA resp = .error .chainPem) ∧
    (resp.caChain = [] → resp.issuingCA = some c → c.certs = [] →
      resp.keyPairOk = true →
      issuerBuild requireCA resp = .error .issuingPem) := by
  refine ⟨?_, ?_, ?_, ?_, ?_, ?_⟩
  · intro hkey hnot hchain hall
    simp [issuerBuild, hkey, appendChain_all_ok _ _ hall, hchain, finishBundle, parseNotAfter, hnot]
  · intro hkey hnot hchain hissue hcerts
    simp [issuerBuild, hkey, hchain, hissue, hcerts, appendChain, finishBundle, parseNotAfter, hnot]
  · intro hkey hreq hchain hissue
    simp [issuerBuild, hkey, hreq, hchain, hissue, appendChain]
  · intro hkey hnot hreq hchain hissue
    simp [issuerBuild, hkey, hreq, hchain, hissue, appendChain, finishBundle, parseNotAfter, hnot]
  · intro hex hkey
    simp [issuerBuild, hkey, appendChain_err _ _ hex]
  · intro hchain hissue hcerts hkey
    simp [issuerBuild, hkey, hchain, hissue, hcerts, appendChain]

theorem c6_trust_pool_witness :
    (issuerBuild false ⟨⟨some 99⟩, true, [⟨[1, 2]⟩, ⟨[3]⟩], some ⟨[7]⟩⟩ =
      .ok ⟨[1, 2, 3], 99⟩) ∧
    (issuerBuild true ⟨⟨some 99⟩, true, [], none⟩ = .error .missingCA) ∧
    (issuerBuild false ⟨⟨some 99⟩, true, [], none⟩ = .ok ⟨[], 99⟩) := by
  refine ⟨?_, ?_, ?_⟩
  · have h := (c6_trust_pool false ⟨⟨some 99⟩, true, [⟨[1, 2]⟩, ⟨[3]⟩], some ⟨[7]⟩⟩ 99 ⟨[7]⟩).1
      rfl rfl (by simp) (by decide)
    simpa using h
  · exact (c6_trust_pool true ⟨⟨some 99⟩, true, [], none⟩ 99 ⟨[]⟩).2.2.1 rfl rfl rfl rfl
  · exact (c6_trust_pool false ⟨⟨some 99⟩, true, [], none⟩ 99 ⟨[]⟩).2.2.2.1 rfl rfl rfl rfl rfl

/-- C7: every successful issuance carries a `NotAfter` equal to the value
parsed from the issued leaf certificate itself; two issuances differing
only in the requested TTL but receiving the same response certificate
produce the same `NotAfter`; and a response certificate whose PEM fails to
parse makes the issuance fail. -/
theorem c7_notAfter_from_leaf (requireCA : Bool) (resp : VResp) (cn : String)
    (alt uris : List String) (ttl1 ttl2 : Int)
    (backend : VIssueRequest → Except VErr VResp) (r1 r2 : VResp) (b1 b2 : IBundle) :
    (∀ b, issuerBuild requireCA resp = .ok b →
      resp.certificate.notAfterField = some b.notAfter) ∧
    (backend (buildIssueRequest cn alt uris ttl1) = .ok r1 →
      backend (buildIssueRequest cn alt uris ttl2) = .ok r2 →
      r1.certificate = r2.certificate →
      issuerIssue requireCA cn alt uris ttl1 backend = .ok b1 →
      issuerIssue requireCA cn alt uris ttl2 backend = .ok b2 →
      b1.notAfter = b2.notAfter) ∧
    (resp.certificate.notAfterField = none →
      ∀ b, issuerBuild requireCA resp ≠ .ok b) := by
  refine ⟨?_, ?_, ?_⟩
  · intro b h
    exact issuerBuild_ok_notAfter requireCA resp b h
  · intro hb1 hb2 hcert h1 h2
    unfold issuerIssue at h1 h2
    rw [hb1] at h1
    rw [hb2] at h2
    have k1 := issuerBuild_ok_notAfter requireCA r1 b1 h1
    have k2 := issuerBuild_ok_notAfter requireCA r2 b2 h2
    rw [hcert] at k1
    rw [k1] at k2
    exact Option.some.inj k2
  · intro hnone b h
    have k := issuerBuild_ok_notAfter requireCA resp b h
    rw [hnone] at k
    exact Option.noConfusion k

theorem c7_notAfter_from_leaf_witness :
    ((⟨[], 5⟩ : IBundle).notAfter = (⟨[], 5⟩ : IBundle).notAfter) :=
  (c7_notAfter_from_leaf false ⟨⟨some 5⟩, true, [], none⟩ "svc" [] [] 0 100
      (fun _ => .ok ⟨⟨some 5⟩, true, [], none⟩)
      ⟨⟨some 5⟩, true, [], none⟩ ⟨⟨some 5⟩, true, [], none⟩
      ⟨[], 5⟩ ⟨[], 5⟩).2.1
    rfl rfl rfl rfl rfl
